import Mathlib

/-!
Verification of the worker-node scheduling engine and log-batching pipeline
of the `crontab` repository, together with the master-side worker listing.

Times are modelled as `Int` instants (the code's `time.Time` /
`time.Duration`, in nanoseconds where the unit matters). Go maps keyed by
job name are modelled either as `String → Option _` (the execution tracker,
where only lookup/insert/delete by key occur) or as a list of entries (the
plan table, which the scheduler also iterates over). Go channels feeding a
single-threaded loop are modelled by feeding the loop's step function an
explicit list of events.
-/

namespace Crontab

/-- `common.Job`: a job definition (name is the unique key). -/
structure Job where
  name : String
  command : String
deriving DecidableEq

/-- `common.JobsSchedulerPlan`: a schedule plan — the job, its trigger
expression (modelled by its `Next` function, from instant to next fire
instant) and the computed next fire time. -/
structure JobsSchedulerPlan where
  job : Job
  next : Int → Int
  nextTime : Int

/-- `common.JobExecuteInfo`: the in-flight execution handle — job, planned
fire time, actual dispatch time, and the cancellation control (modelled as
an abstract token identifying the cancel capability). -/
structure JobExecuteInfo where
  job : Job
  planTime : Int
  realTime : Int
  cancelToken : Nat
deriving DecidableEq

/-- Modelled from the spec: `common.BuildJobExecuteInfo` (the `common`
package is not under `src/`) builds an ExecutionHandle "capturing planned
fire time and actual dispatch time". -/
def BuildJobExecuteInfo (jobPlan : JobsSchedulerPlan) (now : Int) : JobExecuteInfo :=
  { job := jobPlan.job, planTime := jobPlan.nextTime, realTime := now, cancelToken := 0 }

/-- Execution errors: the distinguished `common.ERR_LOCK_ALREADY_REQUIRED`
value (the distributed lock was held by another worker), or any other
error with its message. -/
inductive JobErr where
  | lockAlreadyRequired
  | other (msg : String)
deriving DecidableEq

/-- `common.JobExecuteResult`: outcome of one execution. `err = none` is
SUCCESS, `err = some .lockAlreadyRequired` is LOCK_BUSY, any other
`some _` is FAILURE. -/
structure JobExecuteResult where
  executeInfo : JobExecuteInfo
  output : String
  err : Option JobErr
  startTime : Int
  endTime : Int
deriving DecidableEq

/-- `common.JobLog`: the audit log record built from an execution result. -/
structure JobLog where
  jobName : String
  command : String
  output : String
  err : String
  planTime : Int
  schedulerTime : Int
  startTime : Int
  endTime : Int
deriving DecidableEq

/-- Job event kinds: `common.JOB_EVENT_SAVE / _DELETE / _KILLER`. -/
inductive JobEventType where
  | save
  | delete
  | killer
deriving DecidableEq

/-- `common.JobEvent`: a job-definition event from the coordination-store
watch. -/
structure JobEvent where
  eventType : JobEventType
  job : Job

/-- The `Scheduler`'s two tables: the schedule table (Go: map from name to
plan; here a list of plans with the name as key inside each entry, so the
recompute sweep can iterate it) and the execution tracker (Go: map from
name to execute info). -/
structure SchedState where
  jobPlanTable : List JobsSchedulerPlan
  jobExecutingTable : String → Option JobExecuteInfo

/-- Insert-or-replace a plan keyed by job name, the model of the Go map
assignment `jobPlanTable[name] = plan`. -/
def savePlan : List JobsSchedulerPlan → String → JobsSchedulerPlan → List JobsSchedulerPlan
  | [], _, p => [p]
  | q :: rest, n, p => if q.job.name = n then p :: rest else q :: savePlan rest n p

/-- `Scheduler.handleJobEvent`, parametrised by `buildPlan`
(`common.BulidJobSchedulerPlan`, external to `src/`: `none` models a
trigger-expression parse error). Returns the new state together with the
list of cancellation tokens invoked (`CancelFunc()` calls). -/
def handleJobEvent (buildPlan : Job → Option JobsSchedulerPlan)
    (s : SchedState) (jobEvent : JobEvent) : SchedState × List Nat :=
  match jobEvent.eventType with
  | JobEventType.save =>
      match buildPlan jobEvent.job with
      | none => (s, [])
      | some p => ({ s with jobPlanTable := savePlan s.jobPlanTable jobEvent.job.name p }, [])
  | JobEventType.delete =>
      ({ s with jobPlanTable :=
          s.jobPlanTable.filter (fun p => p.job.name != jobEvent.job.name) }, [])
  | JobEventType.killer =>
      match s.jobExecutingTable jobEvent.job.name with
      | some info => (s, [info.cancelToken])
      | none => (s, [])

/-- `Scheduler.TryStartJob`: skip if the job already has a handle in the
execution tracker; otherwise build a handle, insert it, and dispatch.
The second component is the handle handed to `G_executor.ExecuteJob`
(`none` = the Executor was not invoked). -/
def TryStartJob (now : Int) (jobExecutingTable : String → Option JobExecuteInfo)
    (jobPlan : JobsSchedulerPlan) :
    (String → Option JobExecuteInfo) × Option JobExecuteInfo :=
  match jobExecutingTable jobPlan.job.name with
  | some _ => (jobExecutingTable, none)
  | none =>
      let info := BuildJobExecuteInfo jobPlan now
      (fun n => if n = jobPlan.job.name then some info else jobExecutingTable n, some info)

/-- Sample job, used by concrete witnesses. -/
def wJob : Job := { name := "job1", command := "echo hi" }

/-- Sample execution handle, used by concrete witnesses. -/
def wInfo : JobExecuteInfo := { job := wJob, planTime := 0, realTime := 0, cancelToken := 7 }

/-- Sample plan, used by concrete witnesses. -/
def wPlan : JobsSchedulerPlan := { job := wJob, next := fun t => t + 2, nextTime := 0 }

/-- Sample scheduler state with `wPlan` scheduled and `wJob` executing,
used by concrete witnesses. -/
def wStateExec : SchedState :=
  { jobPlanTable := [wPlan],
    jobExecutingTable := fun n => if n = "job1" then some wInfo else none }

/-- Sample empty scheduler state, used by concrete witnesses. -/
def wState : SchedState := { jobPlanTable := [], jobExecutingTable := fun _ => none }

/-- C1: the execution tracker maps each job name to at most one handle (it
is `String → Option JobExecuteInfo`); a dispatch attempt for a plan whose
job name already has a handle is a no-op: the tracker is returned
unchanged (nothing inserted) and no handle is handed to the Executor. -/
theorem tryStartJob_skip_when_executing (now : Int)
    (jobExecutingTable : String → Option JobExecuteInfo)
    (jobPlan : JobsSchedulerPlan) (info : JobExecuteInfo)
    (h : jobExecutingTable jobPlan.job.name = some info) :
    TryStartJob now jobExecutingTable jobPlan = (jobExecutingTable, none) := by
  unfold TryStartJob
  rw [h]

/-- C1 witness: with `wJob` already in the tracker, dispatching `wPlan`
changes nothing and invokes no executor. -/
theorem tryStartJob_skip_when_executing_witness :
    TryStartJob 5 (fun n => if n = "job1" then some wInfo else none) wPlan =
      ((fun n => if n = "job1" then some wInfo else none), none) :=
  tryStartJob_skip_when_executing 5 _ wPlan wInfo (by simp [wPlan, wJob])

/-- C6: a SAVE event whose trigger expression fails to parse
(`buildPlan = none`) is discarded silently: the state (in particular the
schedule table) is unchanged and nothing is invoked or escalated. -/
theorem handleJobEvent_save_parse_failure
    (buildPlan : Job → Option JobsSchedulerPlan) (s : SchedState) (jobEvent : JobEvent)
    (hty : jobEvent.eventType = JobEventType.save)
    (hparse : buildPlan jobEvent.job = none) :
    handleJobEvent buildPlan s jobEvent = (s, []) := by
  unfold handleJobEvent
  rw [hty, hparse]

/-- C6 witness: a SAVE of `wJob` under an always-failing parser leaves the
state unchanged. -/
theorem handleJobEvent_save_parse_failure_witness :
    handleJobEvent (fun _ => none) wStateExec
      { eventType := JobEventType.save, job := wJob } = (wStateExec, []) :=
  handleJobEvent_save_parse_failure (fun _ => none) wStateExec _ rfl rfl

/-- C8: a DELETE whose job name is in no plan-table entry, and a
FORCE-KILL whose job name is not in the execution tracker, are both
no-ops: the state is returned unchanged and no cancellation is invoked. -/
theorem handleJobEvent_unknown_key_noop
    (buildPlan : Job → Option JobsSchedulerPlan) (s : SchedState) (jobEvent : JobEvent) :
    (jobEvent.eventType = JobEventType.delete →
      (∀ p ∈ s.jobPlanTable, p.job.name ≠ jobEvent.job.name) →
      handleJobEvent buildPlan s jobEvent = (s, [])) ∧
    (jobEvent.eventType = JobEventType.killer →
      s.jobExecutingTable jobEvent.job.name = none →
      handleJobEvent buildPlan s jobEvent = (s, [])) := by
  constructor
  · intro hty habs
    unfold handleJobEvent
    rw [hty]
    have hfilter : s.jobPlanTable.filter (fun p => p.job.name != jobEvent.job.name) =
        s.jobPlanTable := by
      apply List.filter_eq_self.mpr
      intro p hp
      exact bne_iff_ne.mpr (habs p hp)
    rw [hfilter]
  · intro hty habs
    unfold handleJobEvent
    rw [hty, habs]

/-- C8 witness: DELETE and FORCE-KILL for the unknown name "ghost" leave
`wStateExec` unchanged. -/
theorem handleJobEvent_unknown_key_noop_witness :
    handleJobEvent (fun _ => none) wStateExec
      { eventType := JobEventType.delete, job := { name := "ghost", command := "" } } =
      (wStateExec, []) ∧
    handleJobEvent (fun _ => none) wStateExec
      { eventType := JobEventType.killer, job := { name := "ghost", command := "" } } =
      (wStateExec, []) :=
  ⟨(handleJobEvent_unknown_key_noop (fun _ => none) wStateExec _).1 rfl
      (by intro p hp; simp [wStateExec] at hp; subst hp; simp [wPlan, wJob]),
   (handleJobEvent_unknown_key_noop (fun _ => none) wStateExec _).2 rfl
      (by simp [wStateExec])⟩

/-- C9: a FORCE-KILL event never modifies the scheduler state — in
particular the schedule-table entry for the job stays; its only effect is
invoking the cancellation control of the existing handle, if any. -/
theorem handleJobEvent_killer_frame
    (buildPlan : Job → Option JobsSchedulerPlan) (s : SchedState) (jobEvent : JobEvent)
    (hty : jobEvent.eventType = JobEventType.killer) :
    (handleJobEvent buildPlan s jobEvent).1 = s ∧
    (handleJobEvent buildPlan s jobEvent).2 =
      (match s.jobExecutingTable jobEvent.job.name with
       | some info => [info.cancelToken]
       | none => []) := by
  unfold handleJobEvent
  rw [hty]
  cases s.jobExecutingTable jobEvent.job.name <;> exact ⟨rfl, rfl⟩

/-- C9 witness: FORCE-KILL of the executing `wJob` leaves the state (and
its plan table) unchanged and invokes exactly its cancel token. -/
theorem handleJobEvent_killer_frame_witness :
    (handleJobEvent (fun _ => none) wStateExec
        { eventType := JobEventType.killer, job := wJob }).1 = wStateExec ∧
    (handleJobEvent (fun _ => none) wStateExec
        { eventType := JobEventType.killer, job := wJob }).2 =
      (match wStateExec.jobExecutingTable wJob.name with
       | some info => [info.cancelToken]
       | none => []) :=
  handleJobEvent_killer_frame (fun _ => none) wStateExec _ rfl

/-- The running minimum used for `nearTime` in `TryScheduler`: Go's
`if nearTime == nil || jobPlan.NextTime.Before(*nearTime)` update. -/
def minWith (x : Int) : Option Int → Int
  | none => x
  | some m => min x m

/-- Result of one `TryScheduler` sweep over the plan table: updated plans,
updated execution tracker, the handles dispatched to the Executor, and the
`nearTime` running minimum (`none` only for an empty table). -/
structure SweepResult where
  plans : List JobsSchedulerPlan
  execTable : String → Option JobExecuteInfo
  dispatched : List JobExecuteInfo
  nearTime : Option Int

/-- The `for _, jobPlan = range scheduler.jobPlanTable` body of
`TryScheduler`: a due plan (`NextTime` at or before now) is dispatched via
`TryStartJob` and its `NextTime` advanced to `Expr.Next(now)`; every
plan's (possibly updated) `NextTime` feeds the `nearTime` minimum. -/
def sweepPlans (now : Int) :
    List JobsSchedulerPlan → (String → Option JobExecuteInfo) → SweepResult
  | [], et => ⟨[], et, [], none⟩
  | p :: rest, et =>
      if p.nextTime ≤ now then
        let r := TryStartJob now et p
        let p' := { p with nextTime := p.next now }
        let tail := sweepPlans now rest r.1
        ⟨p' :: tail.plans, tail.execTable, r.2.toList ++ tail.dispatched,
          some (minWith p'.nextTime tail.nearTime)⟩
      else
        let tail := sweepPlans now rest et
        ⟨p :: tail.plans, tail.execTable, tail.dispatched,
          some (minWith p.nextTime tail.nearTime)⟩

/-- One second of Go `time.Duration`, in nanoseconds. -/
def oneSecond : Int := 1000000000

/-- Result of `Scheduler.TryScheduler`: the new scheduler state, the
handles dispatched, and the returned wake delay `schedulerAfter`. -/
structure SchedResult where
  state : SchedState
  dispatched : List JobExecuteInfo
  schedulerAfter : Int

/-- `Scheduler.TryScheduler`: with an empty plan table return a fixed
1-second delay; otherwise sweep all plans and return
`(*nearTime).Sub(now)` (the `getD now` default is unreachable: the sweep
of a non-empty table always yields `some`). No clamping is performed. -/
def TryScheduler (now : Int) (s : SchedState) : SchedResult :=
  if s.jobPlanTable.isEmpty then
    ⟨s, [], oneSecond⟩
  else
    let r := sweepPlans now s.jobPlanTable s.jobExecutingTable
    ⟨⟨r.plans, r.execTable⟩, r.dispatched, r.nearTime.getD now - now⟩

/-- The next-fire time of a plan after the sweep has processed it: a due
plan is advanced to `Expr.Next(now)`, a not-yet-due plan keeps its time. -/
def updatedNext (now : Int) (p : JobsSchedulerPlan) : Int :=
  if p.nextTime ≤ now then p.next now else p.nextTime

/-- The `nearTime` minimum of a plan list, in terms of `updatedNext`. -/
def nearOf (now : Int) : List JobsSchedulerPlan → Option Int
  | [] => none
  | p :: rest => some (minWith (updatedNext now p) (nearOf now rest))

theorem sweepPlans_nearTime (now : Int) (ps : List JobsSchedulerPlan) :
    ∀ et, (sweepPlans now ps et).nearTime = nearOf now ps := by
  induction ps with
  | nil => intro et; rfl
  | cons p rest ih =>
      intro et
      by_cases h : p.nextTime ≤ now
      · simp only [sweepPlans, if_pos h, nearOf]
        rw [ih]
        have : updatedNext now p = p.next now := if_pos h
        rw [this]
      · simp only [sweepPlans, if_neg h, nearOf]
        rw [ih]
        have : updatedNext now p = p.nextTime := if_neg h
        rw [this]

theorem nearOf_spec (now : Int) :
    ∀ ps : List JobsSchedulerPlan, ps ≠ [] →
      ∃ m, nearOf now ps = some m ∧ m ∈ ps.map (updatedNext now) ∧
        ∀ x ∈ ps.map (updatedNext now), m ≤ x := by
  intro ps
  induction ps with
  | nil => intro h; exact absurd rfl h
  | cons p rest ih =>
      intro _
      cases rest with
      | nil =>
          refine ⟨updatedNext now p, ?_, by simp, by simp⟩
          simp [nearOf, minWith]
      | cons q rs =>
          obtain ⟨m, hm, hmem, hle⟩ := ih (by simp)
          refine ⟨min (updatedNext now p) m, ?_, ?_, ?_⟩
          · simp only [nearOf] at hm ⊢
            rw [hm]
            rfl
          · rcases le_total (updatedNext now p) m with h | h
            · simp [min_eq_left h]
            · rw [min_eq_right h]
              simp only [List.map_cons, List.mem_cons]
              right
              simpa using hmem
          · intro x hx
            simp only [List.map_cons, List.mem_cons] at hx
            rcases hx with rfl | hx
            · exact min_le_left _ _
            · exact le_trans (min_le_right _ _) (hle x (by simpa using hx))

theorem updatedNext_gt (now : Int) (p : JobsSchedulerPlan)
    (hp : ∀ t : Int, t < p.next t) : now < updatedNext now p := by
  unfold updatedNext
  by_cases h : p.nextTime ≤ now
  · rw [if_pos h]; exact hp now
  · rw [if_neg h]; omega

/-- C3: for every non-empty plan table (whose trigger expressions obey
their contract of yielding a next occurrence strictly after the given
instant), `TryScheduler` returns exactly (minimum updated next-fire time
across all plans) − now, and that delay is non-negative — so the
"clamp if negative" clause is never exercised. -/
theorem tryScheduler_nonneg (now : Int) (s : SchedState)
    (hne : s.jobPlanTable ≠ [])
    (hNext : ∀ p ∈ s.jobPlanTable, ∀ t : Int, t < p.next t) :
    ∃ m, nearOf now s.jobPlanTable = some m ∧
      m ∈ s.jobPlanTable.map (updatedNext now) ∧
      (∀ x ∈ s.jobPlanTable.map (updatedNext now), m ≤ x) ∧
      (TryScheduler now s).schedulerAfter = m - now ∧
      0 ≤ (TryScheduler now s).schedulerAfter := by
  obtain ⟨m, hm, hmem, hle⟩ := nearOf_spec now s.jobPlanTable hne
  have hie : s.jobPlanTable.isEmpty = false := by
    cases h : s.jobPlanTable with
    | nil => exact absurd h hne
    | cons a l => rfl
  have hafter : (TryScheduler now s).schedulerAfter = m - now := by
    unfold TryScheduler
    rw [hie]
    simp only [Bool.false_eq_true, if_false]
    rw [sweepPlans_nearTime, hm]
    rfl
  have hmgt : now < m := by
    obtain ⟨p, hp, hpm⟩ := List.mem_map.mp hmem
    rw [← hpm]
    exact updatedNext_gt now p (hNext p hp)
  exact ⟨m, hm, hmem, hle, hafter, by rw [hafter]; omega⟩

/-- C3 witness: with the single plan `wPlan` (due at time 1, next fire
at 3), `TryScheduler` returns delay 3 − 1 = 2 ≥ 0. -/
theorem tryScheduler_nonneg_witness :
    ∃ m, nearOf 1 wStateExec.jobPlanTable = some m ∧
      m ∈ wStateExec.jobPlanTable.map (updatedNext 1) ∧
      (∀ x ∈ wStateExec.jobPlanTable.map (updatedNext 1), m ≤ x) ∧
      (TryScheduler 1 wStateExec).schedulerAfter = m - 1 ∧
      0 ≤ (TryScheduler 1 wStateExec).schedulerAfter :=
  tryScheduler_nonneg 1 wStateExec (by simp [wStateExec])
    (by intro p hp t
        simp [wStateExec] at hp
        subst hp
        simp [wPlan])

/-- The text of an execution error (`result.Err.Error()` in Go, `""` when
`result.Err == nil`). The concrete message of the distinguished lock error
lives in the `common` package, outside `src/`; its value is irrelevant to
the claims. -/
def errString : Option JobErr → String
  | none => ""
  | some JobErr.lockAlreadyRequired => "lock already required"
  | some (JobErr.other msg) => msg

/-- The `common.JobLog` built by `Scheduler.handleJobResult` from a
result: name, command, output, error text, and the four timestamps each
converted from nanoseconds to milliseconds (`UnixNano() / 1000 / 1000`). -/
def buildJobLog (result : JobExecuteResult) : JobLog :=
  { jobName := result.executeInfo.job.name
    command := result.executeInfo.job.command
    output := result.output
    err := errString result.err
    planTime := result.executeInfo.planTime / 1000 / 1000
    schedulerTime := result.executeInfo.realTime / 1000 / 1000
    startTime := result.startTime / 1000 / 1000
    endTime := result.endTime / 1000 / 1000 }

/-- `Scheduler.handleJobResult`: delete the job's handle from the
execution tracker unconditionally; unless the error is the distinguished
lock-busy value, build a `JobLog` and forward it to the Log Sink. The
second component is what is handed to `G_logSink.Append` (`none` =
nothing forwarded). -/
def handleJobResult (s : SchedState) (result : JobExecuteResult) :
    SchedState × Option JobLog :=
  let s' := { s with jobExecutingTable :=
      fun n => if n = result.executeInfo.job.name then none
               else s.jobExecutingTable n }
  if result.err = some JobErr.lockAlreadyRequired then
    (s', none)
  else
    (s', some (buildJobLog result))

/-- C4: `handleJobResult` forwards no `JobLog` exactly when the outcome is
LOCK_BUSY; every SUCCESS or FAILURE result is forwarded as the `JobLog`
built from it. -/
theorem handleJobResult_lock_suppresses_logging
    (s : SchedState) (result : JobExecuteResult) :
    ((handleJobResult s result).2 = none ↔
      result.err = some JobErr.lockAlreadyRequired) ∧
    (result.err ≠ some JobErr.lockAlreadyRequired →
      (handleJobResult s result).2 = some (buildJobLog result)) := by
  unfold handleJobResult
  by_cases h : result.err = some JobErr.lockAlreadyRequired
  · rw [if_pos h]
    exact ⟨⟨fun _ => h, fun _ => rfl⟩, fun hc => absurd h hc⟩
  · rw [if_neg h]
    exact ⟨⟨fun hc => absurd hc (by simp), fun hc => absurd hc h⟩, fun _ => rfl⟩

/-- Sample LOCK_BUSY result, used by concrete witnesses. -/
def wResultBusy : JobExecuteResult :=
  { executeInfo := wInfo, output := "", err := some JobErr.lockAlreadyRequired,
    startTime := 0, endTime := 0 }

/-- Sample SUCCESS result, used by concrete witnesses. -/
def wResultOk : JobExecuteResult :=
  { executeInfo := wInfo, output := "done", err := none,
    startTime := 1000000, endTime := 2000000 }

/-- C4 witness: the LOCK_BUSY result produces no log; the SUCCESS result
produces exactly its built log. -/
theorem handleJobResult_lock_suppresses_logging_witness :
    (handleJobResult wState wResultBusy).2 = none ∧
    (handleJobResult wState wResultOk).2 = some (buildJobLog wResultOk) :=
  ⟨(handleJobResult_lock_suppresses_logging wState wResultBusy).1.mpr rfl,
   (handleJobResult_lock_suppresses_logging wState wResultOk).2
     (by simp [wResultOk])⟩

/-- `common.LogBatch`, with the pointer identity the Go code compares
(`timeoutBatch != logBatch`) made explicit as an allocation id. -/
structure LogBatch where
  id : Nat
  logs : List JobLog
deriving DecidableEq

/-- State of the `LogSink.writeLoop`: the currently open batch (Go's
`logBatch`, `none` = nil) and the next fresh allocation id. -/
structure SinkState where
  current : Option LogBatch
  nextId : Nat
deriving DecidableEq

/-- The two inputs merged by `writeLoop`: a record arriving on `logChan`,
or a commit timer firing on `autoCommitChan` carrying the identity of the
batch it was armed for. -/
inductive SinkEvent where
  | newLog (l : JobLog)
  | timerFire (id : Nat)
deriving DecidableEq

/-- One iteration of `LogSink.writeLoop`. On a record: open a batch if
none is open (arming the commit timer with this batch's identity), append
the record, and if the batch has reached `JobLogBatchSize` flush it
(`saveLogs`) and close it. On a timer firing: if the fired batch is not
the currently open one, discard the event; otherwise flush and close.
The second component lists the bulk writes performed. -/
def writeLoopStep (batchSize : Nat) (s : SinkState) :
    SinkEvent → SinkState × List (List JobLog)
  | SinkEvent.newLog l =>
      match s.current with
      | none =>
          let b' : LogBatch := { id := s.nextId, logs := [l] }
          if batchSize ≤ b'.logs.length then
            ({ current := none, nextId := s.nextId + 1 }, [b'.logs])
          else
            ({ current := some b', nextId := s.nextId + 1 }, [])
      | some b =>
          let b' : LogBatch := { b with logs := b.logs ++ [l] }
          if batchSize ≤ b'.logs.length then
            ({ current := none, nextId := s.nextId }, [b'.logs])
          else
            ({ current := some b', nextId := s.nextId }, [])
  | SinkEvent.timerFire i =>
      match s.current with
      | some b =>
          if b.id = i then ({ current := none, nextId := s.nextId }, [b.logs])
          else (s, [])
      | none => (s, [])

/-- `writeLoop` run over a finite event sequence, accumulating the bulk
writes performed. -/
def writeLoopRun (batchSize : Nat) (s : SinkState) :
    List SinkEvent → SinkState × List (List JobLog)
  | [] => (s, [])
  | e :: es =>
      let r := writeLoopStep batchSize s e
      let r2 := writeLoopRun batchSize r.1 es
      (r2.1, r.2 ++ r2.2)

theorem writeLoopRun_cons (n : Nat) (s s' : SinkState) (ws : List (List JobLog))
    (e : SinkEvent) (es : List SinkEvent) (h : writeLoopStep n s e = (s', ws)) :
    writeLoopRun n s (e :: es) =
      ((writeLoopRun n s' es).1, ws ++ (writeLoopRun n s' es).2) := by
  simp [writeLoopRun, h]

theorem writeLoopStep_newLog_some (n bi nid : Nat) (acc : List JobLog) (l : JobLog) :
    writeLoopStep n ⟨some ⟨bi, acc⟩, nid⟩ (SinkEvent.newLog l) =
      (if n ≤ acc.length + 1 then (⟨none, nid⟩, [acc ++ [l]])
       else (⟨some ⟨bi, acc ++ [l]⟩, nid⟩, [])) := by
  simp [writeLoopStep]

theorem writeLoopStep_newLog_none (n nid : Nat) (l : JobLog) :
    writeLoopStep n ⟨none, nid⟩ (SinkEvent.newLog l) =
      (if n ≤ 1 then (⟨none, nid + 1⟩, [[l]])
       else (⟨some ⟨nid, [l]⟩, nid + 1⟩, [])) := by
  simp [writeLoopStep]

theorem writeLoopRun_fill (n : Nat) :
    ∀ (more acc : List JobLog) (bi nid : Nat), more ≠ [] →
      acc.length + more.length = n →
      writeLoopRun n ⟨some ⟨bi, acc⟩, nid⟩ (more.map SinkEvent.newLog) =
        (⟨none, nid⟩, [acc ++ more]) := by
  intro more
  induction more with
  | nil => intro acc bi nid h _; exact absurd rfl h
  | cons l rest ih =>
      intro acc bi nid _ hlen
      cases rest with
      | nil =>
          have hc : n ≤ acc.length + 1 := by
            simp only [List.length_cons, List.length_nil] at hlen
            omega
          rw [List.map_cons,
            writeLoopRun_cons n ⟨some ⟨bi, acc⟩, nid⟩ ⟨none, nid⟩ [acc ++ [l]]
              (SinkEvent.newLog l) (List.map SinkEvent.newLog [])
              (by rw [writeLoopStep_newLog_some, if_pos hc])]
          simp [writeLoopRun]
      | cons r rs =>
          have hc : ¬ n ≤ acc.length + 1 := by
            simp only [List.length_cons] at hlen
            omega
          rw [List.map_cons,
            writeLoopRun_cons n ⟨some ⟨bi, acc⟩, nid⟩ ⟨some ⟨bi, acc ++ [l]⟩, nid⟩ []
              (SinkEvent.newLog l) (List.map SinkEvent.newLog (r :: rs))
              (by rw [writeLoopStep_newLog_some, if_neg hc])]
          rw [ih (acc ++ [l]) bi nid (by simp)
            (by simp only [List.length_cons] at hlen
                simp only [List.length_append, List.length_cons, List.length_nil]
                omega)]
          simp

/-- C2: feeding `writeLoop` (idle, next id `i`) exactly `batchSize`
records produces exactly one bulk write, closing the batch; the
subsequent firing of that batch's timer produces zero further writes; and
in general a timer firing whose batch identity differs from the currently
open batch performs no write and changes nothing. -/
theorem logBatch_flushed_at_most_once (n : Nat) (hn : 0 < n)
    (logs : List JobLog) (hlen : logs.length = n) (i : Nat) :
    (writeLoopRun n ⟨none, i⟩ (logs.map SinkEvent.newLog)).2 = [logs] ∧
    (writeLoopRun n ⟨none, i⟩ (logs.map SinkEvent.newLog)).1 = ⟨none, i + 1⟩ ∧
    (writeLoopStep n (writeLoopRun n ⟨none, i⟩ (logs.map SinkEvent.newLog)).1
        (SinkEvent.timerFire i)).2 = [] ∧
    (∀ (t : SinkState) (j : Nat), (∀ b, t.current = some b → b.id ≠ j) →
      writeLoopStep n t (SinkEvent.timerFire j) = (t, [])) := by
  have hrun : writeLoopRun n ⟨none, i⟩ (logs.map SinkEvent.newLog) =
      (⟨none, i + 1⟩, [logs]) := by
    cases logs with
    | nil =>
        simp only [List.length_nil] at hlen
        omega
    | cons l rest =>
        by_cases h1 : n ≤ 1
        · have hn1 : n = 1 := by omega
          cases rest with
          | nil =>
              subst hn1
              simp [writeLoopRun, writeLoopStep]
          | cons r rs =>
              simp only [List.length_cons] at hlen
              omega
        · have hrest : rest ≠ [] := by
            intro hc
            subst hc
            simp only [List.length_cons, List.length_nil] at hlen
            omega
          rw [List.map_cons,
            writeLoopRun_cons n ⟨none, i⟩ ⟨some ⟨i, [l]⟩, i + 1⟩ []
              (SinkEvent.newLog l) (List.map SinkEvent.newLog rest)
              (by rw [writeLoopStep_newLog_none, if_neg h1])]
          rw [writeLoopRun_fill n rest [l] i (i + 1) hrest
            (by simp only [List.length_cons] at hlen
                simp only [List.length_cons, List.length_nil]
                omega)]
          simp
  refine ⟨by rw [hrun], by rw [hrun], by rw [hrun]; simp [writeLoopStep], ?_⟩
  intro t j hb
  cases hc : t.current with
  | none => simp [writeLoopStep, hc]
  | some b => simp [writeLoopStep, hc, hb b hc]

/-- Sample log record, used by concrete witnesses. -/
def wLog : JobLog :=
  { jobName := "job1", command := "echo hi", output := "done", err := "",
    planTime := 0, schedulerTime := 0, startTime := 0, endTime := 0 }

/-- C2 witness: batch size 2, two records, timer id 0 — one write of both
records, then the stale timer writes nothing. -/
theorem logBatch_flushed_at_most_once_witness :
    (writeLoopRun 2 ⟨none, 0⟩ ([wLog, wLog].map SinkEvent.newLog)).2 = [[wLog, wLog]] ∧
    (writeLoopRun 2 ⟨none, 0⟩ ([wLog, wLog].map SinkEvent.newLog)).1 = ⟨none, 0 + 1⟩ ∧
    (writeLoopStep 2 (writeLoopRun 2 ⟨none, 0⟩ ([wLog, wLog].map SinkEvent.newLog)).1
        (SinkEvent.timerFire 0)).2 = [] ∧
    (∀ (t : SinkState) (j : Nat), (∀ b, t.current = some b → b.id ≠ j) →
      writeLoopStep 2 t (SinkEvent.timerFire j) = (t, [])) :=
  logBatch_flushed_at_most_once 2 (by decide) [wLog, wLog] rfl 0

/-- Outcome of the durable store's bulk insert (`InsertMany`). -/
inductive InsertOutcome where
  | ok
  | failed (msg : String)
deriving DecidableEq

/-- `LogSink.saveLogs`: the body is the single call
`logSink.logCollection.InsertMany(context.TODO(), batch.Logs)`, whose
return values (result and error) are discarded. The model returns the
list of bulk writes attempted and the list of operator-visible messages
emitted — the code emits none and inspects nothing. -/
def saveLogs (insertMany : List JobLog → InsertOutcome) (batch : List JobLog) :
    List (List JobLog) × List String :=
  let _outcome := insertMany batch
  ([batch], [])

/-- C5 counterexample: on a store whose bulk write fails, `saveLogs`
attempts the write exactly once and surfaces nothing — the operator
message channel stays empty, so the failure is not observable. -/
theorem saveLogs_failure_not_surfaced :
    saveLogs (fun _ => InsertOutcome.failed "write failed") [wLog] =
      ([[wLog]], []) := rfl

/-- C5 amended: for every store and batch, `saveLogs` hands the batch to
the durable store exactly once (no retry, the batch is not resubmitted)
and emits no operator-visible message — a write failure is silently
discarded, not surfaced. -/
theorem saveLogs_single_attempt_silent
    (insertMany : List JobLog → InsertOutcome) (batch : List JobLog) :
    saveLogs insertMany batch = ([batch], []) := rfl

/-- The bounded inbound record channel of the Log Sink (`logChan`). -/
structure LogChan where
  cap : Nat
  buf : List JobLog
deriving DecidableEq

/-- `LogSink.Append`: the Go `select` with a `default` branch — enqueue if
the bounded channel has room, otherwise drop the record. Always returns
(never blocks). -/
def Append (c : LogChan) (jobLog : JobLog) : LogChan :=
  if c.buf.length < c.cap then { c with buf := c.buf ++ [jobLog] } else c

/-- C7: `Append` is total and never waits: on a full channel the record is
dropped and the channel is unchanged; otherwise the record is enqueued. -/
theorem append_drops_when_full (c : LogChan) (jobLog : JobLog) :
    (c.cap ≤ c.buf.length → Append c jobLog = c) ∧
    (c.buf.length < c.cap → Append c jobLog = { c with buf := c.buf ++ [jobLog] }) := by
  constructor
  · intro h
    unfold Append
    rw [if_neg (by omega)]
  · intro h
    unfold Append
    rw [if_pos h]

/-- C7 witness: a channel of capacity 1 holding one record drops the next
`Append`. -/
theorem append_drops_when_full_witness :
    Append { cap := 1, buf := [wLog] } wLog = { cap := 1, buf := [wLog] } :=
  (append_drops_when_full { cap := 1, buf := [wLog] } wLog).1 (by decide)

/-- An etcd key-value pair as read by `ListWorkers`. -/
structure KeyValue where
  key : String
deriving DecidableEq

/-- An etcd range response: the key-value pairs under the queried
directory. -/
structure GetResponse where
  kvs : List KeyValue
deriving DecidableEq

/-- `WorkerMgr.ListWorkers`, parametrised by the coordination-store read
result and `common.ExtractWorkerIP` (both external to this file's `src/`
slice). `workerArr` is initialised to `make([]string, 0)` — a non-nil
empty slice, modelled as `some []` with `none` standing for a nil slice —
before the store is consulted; on a read error that still-empty slice is
returned with the error, otherwise one IP per key is appended. -/
def ListWorkers (extractWorkerIP : String → String)
    (getResult : Except String GetResponse) :
    Option (List String) × Option String :=
  let workerArr : Option (List String) := some []
  match getResult with
  | Except.error e => (workerArr, some e)
  | Except.ok resp =>
      (some (resp.kvs.map (fun kv => extractWorkerIP kv.key)), none)

/-- C10: `ListWorkers` never returns a nil list; an empty directory yields
the empty list with no error; a failed read yields the error together
with the (never partially populated) empty list. -/
theorem listWorkers_never_nil (extractWorkerIP : String → String)
    (getResult : Except String GetResponse) :
    (ListWorkers extractWorkerIP getResult).1 ≠ none ∧
    (∀ e, getResult = Except.error e →
      ListWorkers extractWorkerIP getResult = (some [], some e)) ∧
    (∀ resp, getResult = Except.ok resp → resp.kvs = [] →
      ListWorkers extractWorkerIP getResult = (some [], none)) := by
  refine ⟨?_, ?_, ?_⟩
  · cases getResult <;> simp [ListWorkers]
  · intro e he
    subst he
    rfl
  · intro resp hr hkvs
    subst hr
    simp [ListWorkers, hkvs]

/-- C10 witness: a failed read returns (empty non-nil list, the error); an
empty directory returns (empty non-nil list, no error). -/
theorem listWorkers_never_nil_witness :
    ListWorkers id (Except.error "etcd down") = (some [], some "etcd down") ∧
    ListWorkers id (Except.ok { kvs := [] }) = (some [], none) :=
  ⟨(listWorkers_never_nil id (Except.error "etcd down")).2.1 "etcd down" rfl,
   (listWorkers_never_nil id (Except.ok { kvs := [] })).2.2 { kvs := [] } rfl rfl⟩

end Crontab
